import Mathlib

/-!
# Verification of `fix_player_data.py`

A shallow embedding of the data-repair script for the NBA players
database, and proofs of the specified properties.

Strings are modelled as `List Char`.  Python text values and SQLite
text cells are both ASCII in this data set, so case folding
(`lowAscii`, modelling both Python `str.lower` and SQLite's
ASCII-only `LIKE` folding) is modelled on the ASCII letters `A`-`Z`
only.  Python whitespace stripping (`str.strip` with no argument)
is modelled on the ASCII whitespace characters (tab through carriage
return, and space).
-/

set_option maxRecDepth 4000

namespace NbaFix

/-- The characters of a string literal, as the list the embedding works on. -/
def chars (s : String) : List Char := s.data

/-- ASCII whitespace, as recognised by Python `str.strip()` / regex `\s`
on this data (codepoints 9-13 and 32). -/
def isSpacePy (c : Char) : Bool := decide (c.toNat = 32 ∨ (9 ≤ c.toNat ∧ c.toNat ≤ 13))

/-- ASCII lower-casing of one character: `A`-`Z` maps to `a`-`z`, all else fixed.
Models Python `str.lower` and SQLite `LIKE` folding on this ASCII data. -/
def lowChar (c : Char) : Char :=
  if 65 ≤ c.toNat ∧ c.toNat ≤ 90 then Char.ofNat (c.toNat + 32) else c

/-- ASCII lower-casing of a string. -/
def lowAscii (l : List Char) : List Char := l.map lowChar

/-- Strip leading and trailing whitespace: Python `str.strip()`. -/
def pyStrip (l : List Char) : List Char :=
  ((l.dropWhile isSpacePy).reverse.dropWhile isSpacePy).reverse

/-- `startsWithL p l`: `p` is a prefix of `l`. -/
def startsWithL : List Char → List Char → Bool
  | [], _ => true
  | _ :: _, [] => false
  | a :: p, b :: l => a == b && startsWithL p l

/-- `hasSub p l`: `p` occurs as a contiguous substring of `l`
(Python `p in l`, and the positive part of SQLite `LIKE` with a
`%p%` pattern once both sides are case-folded). -/
def hasSub (p : List Char) : List Char → Bool
  | [] => p.isEmpty
  | b :: l => startsWithL p (b :: l) || hasSub p l

/-- `normalize_shoots` from `fix_player_data.py`.

    def normalize_shoots(shoots_text):
        if not shoots_text:
            return None
        shoots_text = shoots_text.strip()
        if 'Left' in shoots_text or 'left' in shoots_text.lower():
            return 'Left'
        elif 'Right' in shoots_text or 'right' in shoots_text.lower():
            return 'Right'
        return shoots_text

The input is an optional string (`None` or a `str`); `not shoots_text`
is true exactly on `None` and the empty string. -/
def normalize_shoots (shoots_text : Option (List Char)) : Option (List Char) :=
  match shoots_text with
  | Option.none => Option.none
  | some s =>
    if s.isEmpty then Option.none
    else
      let t := pyStrip s
      if hasSub (chars "Left") t || hasSub (chars "left") (lowAscii t) then
        some (chars "Left")
      else if hasSub (chars "Right") t || hasSub (chars "right") (lowAscii t) then
        some (chars "Right")
      else some t

/-- Python exceptions relevant to `int(...)` conversion; `otherError`
stands for every exception class other than the two the script catches. -/
inductive PyErr where
  | valueError : PyErr
  | typeError : PyErr
  | otherError : PyErr
deriving DecidableEq, Repr

/-- A Python value as fed to `normalize_draft_round`: `None`, an `int`,
a `str`, or some other (non-numeric, non-string) object. -/
inductive PyVal where
  | none : PyVal
  | int : Int → PyVal
  | str : List Char → PyVal
  | obj : PyVal
deriving DecidableEq, Repr

/-- The value of a nonempty all-digit string, with `acc` the value of the
digits already read; fails on the first non-digit. -/
def digitsValAux (acc : Nat) : List Char → Option Nat
  | [] => some acc
  | c :: r => if c.isDigit then digitsValAux (10 * acc + (c.toNat - 48)) r else Option.none

/-- The numeric value of a nonempty string of decimal digits. -/
def digitsVal : List Char → Option Nat
  | [] => Option.none
  | l => digitsValAux 0 l

/-- Python `int(s)` on a string: surrounding whitespace, an optional
sign, then one or more decimal digits.  (Underscore digit separators
and non-ASCII digits are not modelled; no input in this program uses
them.)  `Option.none` models the `ValueError` the conversion raises. -/
def parseIntPy (s : List Char) : Option Int :=
  match pyStrip s with
  | '+' :: r => (digitsVal r).map (fun n => (n : Int))
  | '-' :: r => (digitsVal r).map (fun n => -(n : Int))
  | r => (digitsVal r).map (fun n => (n : Int))

/-- Python `int(v)`: identity on ints, string parsing on strings (raising
`ValueError` on an unparsable string), `TypeError` on `None` and on any
other non-numeric object. -/
def pyIntConv : PyVal → Except PyErr Int
  | PyVal.none => Except.error PyErr.typeError
  | PyVal.int n => Except.ok n
  | PyVal.str s =>
    match parseIntPy s with
    | some n => Except.ok n
    | Option.none => Except.error PyErr.valueError
  | PyVal.obj => Except.error PyErr.typeError

/-- `normalize_draft_round` from `fix_player_data.py`.

    def normalize_draft_round(round_num):
        if round_num is None:
            return None
        try:
            round_int = int(round_num)
            return min(round_int, 2)
        except (ValueError, TypeError):
            return None

The result is `Except.ok` of the returned optional integer; an
exception the `except` clause does not catch would be `Except.error`. -/
def normalize_draft_round (round_num : PyVal) : Except PyErr (Option Int) :=
  match round_num with
  | PyVal.none => Except.ok Option.none
  | v =>
    match pyIntConv v with
    | Except.ok n => Except.ok (some (min n 2))
    | Except.error PyErr.valueError => Except.ok Option.none
    | Except.error PyErr.typeError => Except.ok Option.none
    | Except.error e => Except.error e

/-! ## The players table and the bulk repair `fix_existing_data` -/

/-- A row of the `players` table, restricted to the columns the repair
procedure reads or writes. -/
structure Row where
  player_id : List Char
  full_name : List Char
  shoots : Option (List Char)
  draft_round : Option Int
deriving DecidableEq, Repr

/-- SQL `draft_round > 2` on a row: `NULL` compares to nothing. -/
def roundPredB (r : Row) : Bool :=
  match r.draft_round with
  | some n => decide (2 < n)
  | Option.none => false

/-- SQL `shoots LIKE '%Left%' AND shoots != 'Left'` on a cell: SQLite
`LIKE` folds ASCII case on both sides by default, `!=` is exact, and a
`NULL` cell satisfies neither. -/
def leftPredS (c : Option (List Char)) : Bool :=
  match c with
  | some s => hasSub (lowAscii (chars "Left")) (lowAscii s) && !(s == chars "Left")
  | Option.none => false

/-- SQL `shoots LIKE '%Right%' AND shoots != 'Right'` on a cell. -/
def rightPredS (c : Option (List Char)) : Bool :=
  match c with
  | some s => hasSub (lowAscii (chars "Right")) (lowAscii s) && !(s == chars "Right")
  | Option.none => false

/-- The left-pass predicate on a row. -/
def leftPredB (r : Row) : Bool := leftPredS r.shoots

/-- The right-pass predicate on a row. -/
def rightPredB (r : Row) : Bool := rightPredS r.shoots

/-- One row under `UPDATE players SET draft_round = 2 WHERE draft_round > 2`. -/
def roundFix (r : Row) : Row :=
  if roundPredB r then { r with draft_round := some 2 } else r

/-- One row under `UPDATE players SET shoots = 'Left' WHERE shoots LIKE
'%Left%' AND shoots != 'Left'`. -/
def leftFix (r : Row) : Row :=
  if leftPredB r then { r with shoots := some (chars "Left") } else r

/-- One row under `UPDATE players SET shoots = 'Right' WHERE shoots LIKE
'%Right%' AND shoots != 'Right'`. -/
def rightFix (r : Row) : Row :=
  if rightPredB r then { r with shoots := some (chars "Right") } else r

/-- The `invalid_rounds` result set: `SELECT player_id, full_name,
draft_round FROM players WHERE draft_round > 2`, fetched before any
update runs. -/
def invalid_rounds (t : List Row) : List Row := t.filter roundPredB

/-- The table after step 1: the draft-round `UPDATE` runs only when
`invalid_rounds` is nonempty. -/
def tableAfterRound (t : List Row) : List Row :=
  if (invalid_rounds t).isEmpty then t else t.map roundFix

/-- The `left_issues` result set, selected (as `(player_id, full_name,
shoots)` tuples) from the table as it stands after step 1 and before
either shoots update. -/
def left_issues (t : List Row) : List (List Char × List Char × Option (List Char)) :=
  ((tableAfterRound t).filter leftPredB).map (fun r => (r.player_id, r.full_name, r.shoots))

/-- The `right_issues` result set, also selected after step 1 and
before either shoots update. -/
def right_issues (t : List Row) : List (List Char × List Char × Option (List Char)) :=
  ((tableAfterRound t).filter rightPredB).map (fun r => (r.player_id, r.full_name, r.shoots))

/-- The table after the `shoots = 'Left'` update, which runs only when
`left_issues` is nonempty; its `WHERE` clause is re-evaluated per row at
update time. -/
def tableAfterLeft (t : List Row) : List Row :=
  if (left_issues t).isEmpty then tableAfterRound t
  else (tableAfterRound t).map leftFix

/-- `fix_existing_data` from `fix_player_data.py`, as a function from the
table state before the run to the table state after it: step 1 caps
draft rounds at 2, step 2 fetches `left_issues` and `right_issues` and
then runs the two shoots updates in order (the right update's `WHERE`
is evaluated against the table the left update already corrected).
Step 3 only reads. -/
def fix_existing_data (t : List Row) : List Row :=
  if (right_issues t).isEmpty then tableAfterLeft t
  else (tableAfterLeft t).map rightFix

/-- The composite per-row effect of one run of `fix_existing_data`. -/
def rowFix (r : Row) : Row := rightFix (leftFix (roundFix r))

/-- The shoots-cell effect of the left update. -/
def leftFixS (c : Option (List Char)) : Option (List Char) :=
  if leftPredS c then some (chars "Left") else c

/-- The shoots-cell effect of the right update. -/
def rightFixS (c : Option (List Char)) : Option (List Char) :=
  if rightPredS c then some (chars "Right") else c

/-! ## The printed step-1 report -/

/-- The decimal digits of `n`, most significant first; `fuel` bounds the
recursion and is always sufficient at `n + 1`. -/
def natDigs : Nat → Nat → List Char
  | 0, _ => []
  | fuel + 1, n =>
    if n < 10 then [Nat.digitChar n]
    else natDigs fuel (n / 10) ++ [Nat.digitChar (n % 10)]

/-- Decimal rendering of a natural number, as Python `str` / f-string
interpolation renders it. -/
def natToChars (n : Nat) : List Char := natDigs (n + 1) n

/-- Decimal rendering of an integer. -/
def intToChars (i : Int) : List Char :=
  if i < 0 then '-' :: natToChars i.natAbs else natToChars i.natAbs

/-- The per-player line step 1 prints:
`f"   - {name}: round {round_num} -> 2"`. -/
def roundLine (name : List Char) (n : Int) : List Char :=
  chars "   - " ++ name ++ chars ": round " ++ intToChars n ++ chars " -> 2"

/-- The console lines step 1 of `fix_existing_data` prints, in order.
`cursor.rowcount` of the bulk update equals the number of rows its
`WHERE` clause matches, which is `(invalid_rounds t).length`. -/
def step1Lines (t : List Row) : List (List Char) :=
  let inv := invalid_rounds t
  if inv.isEmpty then
    [chars "1. Fixing draft rounds > 2...", chars "   ✅ No invalid draft rounds found\n"]
  else
    [chars "1. Fixing draft rounds > 2...",
     chars "   Found " ++ natToChars inv.length ++ chars " players with draft_round > 2:"]
    ++ inv.map (fun r => roundLine r.full_name (r.draft_round.getD 0))
    ++ [chars "   ✅ Updated " ++ natToChars inv.length ++ chars " players to round 2\n"]

/-! ## The profile extractor (`test_scrape_player`'s per-paragraph logic) -/

/-- ASCII regex `\w`: letters, digits, underscore. -/
def isWordChar (c : Char) : Bool := c.isAlphanum || c == '_'

/-- Does `lit` match right after an application of `\s*`?  The literal
starts with a non-space character, so the greedy whitespace run is the
only amount `\s*` can take. -/
def litAfterWS (lit l : List Char) : Bool :=
  startsWithL lit (l.dropWhile isSpacePy)

/-- Backtracking of a greedy `\w*` before `\s*lit`: try dropping `w`,
`w - 1`, ..., `0` word characters. -/
def tryWordDrops (lit l : List Char) : Nat → Bool
  | 0 => litAfterWS lit l
  | w + 1 => litAfterWS lit (l.drop (w + 1)) || tryWordDrops lit l w

/-- Backtracking of a greedy `(\d+)` before `\w*\s*lit`: try group
lengths `d`, `d - 1`, ..., `1`; the group value is the digits taken. -/
def tryDigitLens (lit l : List Char) : Nat → Option Nat
  | 0 => Option.none
  | d + 1 =>
    let rest := l.drop (d + 1)
    if tryWordDrops lit rest (rest.takeWhile isWordChar).length then
      digitsVal (l.take (d + 1))
    else tryDigitLens lit l d

/-- Match `(\d+)\w*\s*lit` at the head of `l`. -/
def matchNumLit (lit l : List Char) : Option Nat :=
  tryDigitLens lit l (l.takeWhile Char.isDigit).length

/-- `re.search` of `(\d+)\w*\s*lit`: leftmost match position wins.
With `lit := chars "round"` this is the round pattern
`(\d+)\w*\s*round`; with `lit := chars "pick"`, the pick pattern. -/
def searchNumLit (lit : List Char) : List Char → Option Nat
  | [] => Option.none
  | b :: l =>
    match matchNumLit lit (b :: l) with
    | some n => some n
    | Option.none => searchNumLit lit l

/-- The lazy group of `(.+?),`: the shortest nonempty newline-free run
ending at a comma; `acc` holds the group so far, reversed. -/
def grabLoop (acc : List Char) : List Char → Option (List Char)
  | [] => Option.none
  | c :: rest =>
    if c == ',' then some acc.reverse
    else if c == '\n' then Option.none
    else grabLoop (c :: acc) rest

/-- Match `(.+?),` at the head of `l`: the first character (any
non-newline character, a comma included) starts the group. -/
def grabUntilComma : List Char → Option (List Char)
  | [] => Option.none
  | c :: rest => if c == '\n' then Option.none else grabLoop [c] rest

/-- Backtracking of the greedy `\s*` before `(.+?),`: try consuming
`k`, `k - 1`, ..., `0` whitespace characters. -/
def tryTeamFrom (r : List Char) : Nat → Option (List Char)
  | 0 => grabUntilComma r
  | k + 1 =>
    match grabUntilComma (r.drop (k + 1)) with
    | some g => some g
    | Option.none => tryTeamFrom r k

/-- Match `Draft:\s*(.+?),` at the head of `l`. -/
def matchTeam (l : List Char) : Option (List Char) :=
  if startsWithL (chars "Draft:") l then
    let r := l.drop 6
    tryTeamFrom r (r.takeWhile isSpacePy).length
  else Option.none

/-- `re.search(r'Draft:\s*(.+?),', text)`, returning group 1. -/
def searchDraftTeam : List Char → Option (List Char)
  | [] => Option.none
  | b :: l =>
    match matchTeam (b :: l) with
    | some g => some g
    | Option.none => searchDraftTeam l

/-- Match `(\d{4})\s*NBA\s*Draft` at the head of `l`: exactly four
digits, then `NBA`, then `Draft`, each after optional whitespace. -/
def matchYear (l : List Char) : Option Nat :=
  let ds := l.take 4
  if ds.length == 4 && ds.all Char.isDigit then
    let afterNBA := (l.drop 4).dropWhile isSpacePy
    if startsWithL (chars "NBA") afterNBA
        && litAfterWS (chars "Draft") (afterNBA.drop 3) then
      digitsVal ds
    else Option.none
  else Option.none

/-- `re.search(r'(\d{4})\s*NBA\s*Draft', text)`, returning group 1. -/
def searchYear : List Char → Option Nat
  | [] => Option.none
  | b :: l =>
    match matchYear (b :: l) with
    | some n => some n
    | Option.none => searchYear l

/-- Match `Shoots:\s*(\S+)` at the head of `l`: the group is the
maximal nonempty non-whitespace run after the marker and whitespace. -/
def matchShoots (l : List Char) : Option (List Char) :=
  if startsWithL (chars "Shoots:") l then
    let r := (l.drop 7).dropWhile isSpacePy
    let g := r.takeWhile (fun c => !isSpacePy c)
    if g.isEmpty then Option.none else some g
  else Option.none

/-- `re.search(r'Shoots:\s*(\S+)', text)`, returning group 1. -/
def searchShoots : List Char → Option (List Char)
  | [] => Option.none
  | b :: l =>
    match matchShoots (b :: l) with
    | some g => some g
    | Option.none => searchShoots l

/-- The extraction state `test_scrape_player` threads through its
paragraph loop: the five fields initialised to `None`. -/
structure ExtractSt where
  shoots : Option (List Char)
  draft_year : Option Int
  draft_round : Option Int
  draft_pick : Option Int
  draft_team : Option (List Char)
deriving DecidableEq, Repr

/-- The all-`None` initial extraction state. -/
def initSt : ExtractSt :=
  { shoots := Option.none, draft_year := Option.none, draft_round := Option.none,
    draft_pick := Option.none, draft_team := Option.none }

/-- The `Shoots:` branch of `test_scrape_player`'s paragraph loop: when
the marker is present and the pattern matches, overwrite the shoots
field with the normalised token; otherwise leave the state alone. -/
def processShoots (st : ExtractSt) (text : List Char) : ExtractSt :=
  if hasSub (chars "Shoots:") text then
    match searchShoots text with
    | some raw => { st with shoots := normalize_shoots (some (pyStrip raw)) }
    | Option.none => st
  else st

/-- The `Draft:` branch of the paragraph loop: the `Undrafted` override
nulls all four draft fields; otherwise the four pattern extractions run
independently, each overwriting its own field only when its pattern
matches.  `normalize_draft_round` never errors on an `int` argument
(`normalize_draft_round_int`), so reading its result through
`Except.toOption` loses nothing. -/
def processDraft (st1 : ExtractSt) (text : List Char) : ExtractSt :=
  if hasSub (chars "Draft:") text then
    if hasSub (chars "Undrafted") text || hasSub (chars "undrafted") text then
      { st1 with draft_round := Option.none, draft_pick := Option.none,
                 draft_team := Option.none, draft_year := Option.none }
    else
      let st2 :=
        match searchDraftTeam text with
        | some g => { st1 with draft_team := some (pyStrip g) }
        | Option.none => st1
      let st3 :=
        match searchNumLit (chars "round") text with
        | some raw =>
          { st2 with draft_round :=
              ((normalize_draft_round (PyVal.int raw)).toOption.getD Option.none) }
        | Option.none => st2
      let st4 :=
        match searchNumLit (chars "pick") text with
        | some n => { st3 with draft_pick := some (n : Int) }
        | Option.none => st3
      match searchYear text with
      | some y => { st4 with draft_year := some (y : Int) }
      | Option.none => st4
  else st1

/-- The body of `test_scrape_player`'s paragraph loop on one paragraph
text: the `Shoots:` branch, then the `Draft:` branch. -/
def processPara (st : ExtractSt) (text : List Char) : ExtractSt :=
  processDraft (processShoots st text) text

/-! ## Lemmas about substring search, stripping and case folding -/

theorem startsWithL_iff {p l : List Char} : startsWithL p l = true ↔ ∃ t, l = p ++ t := by
  induction p generalizing l with
  | nil => simp [startsWithL]
  | cons a p ih =>
    cases l with
    | nil => simp [startsWithL]
    | cons b l =>
      simp only [startsWithL, Bool.and_eq_true, beq_iff_eq, ih, List.cons_append,
        List.cons.injEq]
      constructor
      · rintro ⟨rfl, t, rfl⟩; exact ⟨t, rfl, rfl⟩
      · rintro ⟨t, rfl, rfl⟩; exact ⟨rfl, t, rfl⟩

theorem hasSub_iff {p l : List Char} : hasSub p l = true ↔ ∃ u v, l = u ++ p ++ v := by
  induction l with
  | nil =>
    simp only [hasSub, List.isEmpty_iff]
    constructor
    · rintro rfl; exact ⟨[], [], rfl⟩
    · rintro ⟨u, v, h⟩
      rcases List.append_eq_nil.mp h.symm with ⟨h1, h2⟩
      exact (List.append_eq_nil.mp h1).2
  | cons b l ih =>
    simp only [hasSub, Bool.or_eq_true, startsWithL_iff, ih]
    constructor
    · rintro (⟨t, ht⟩ | ⟨u, v, hv⟩)
      · exact ⟨[], t, by simpa using ht⟩
      · exact ⟨b :: u, v, by simp [hv]⟩
    · rintro ⟨u, v, huv⟩
      cases u with
      | nil => exact Or.inl ⟨v, by simpa using huv⟩
      | cons c u =>
        simp only [List.cons_append, List.cons.injEq] at huv
        exact Or.inr ⟨u, v, huv.2⟩

theorem hasSub_append_left {p u v : List Char} (h : hasSub p v = true) :
    hasSub p (u ++ v) = true := by
  rcases hasSub_iff.mp h with ⟨a, b, rfl⟩
  exact hasSub_iff.mpr ⟨u ++ a, b, by simp⟩

theorem hasSub_map {p l : List Char} (f : Char → Char) (h : hasSub p l = true) :
    hasSub (p.map f) (l.map f) = true := by
  rcases hasSub_iff.mp h with ⟨u, v, rfl⟩
  exact hasSub_iff.mpr ⟨u.map f, v.map f, by simp⟩

theorem hasSub_reverse {p l : List Char} (h : hasSub p l = true) :
    hasSub p.reverse l.reverse = true := by
  rcases hasSub_iff.mp h with ⟨u, v, rfl⟩
  exact hasSub_iff.mpr ⟨v.reverse, u.reverse, by simp⟩

theorem hasSub_dropWhile_sp {p l : List Char} (h : hasSub p l = true)
    (hne : p ≠ []) (hsp : ∀ c ∈ p, isSpacePy c = false) :
    hasSub p (l.dropWhile isSpacePy) = true := by
  induction l with
  | nil =>
    simp only [hasSub, List.isEmpty_iff] at h
    exact absurd h hne
  | cons c l ih =>
    rw [List.dropWhile_cons]
    by_cases hc : isSpacePy c = true
    · rw [if_pos hc]
      apply ih
      rcases Bool.or_eq_true _ _ |>.mp h with hs | hl
      · rcases startsWithL_iff.mp hs with ⟨t, ht⟩
        cases p with
        | nil => exact absurd rfl hne
        | cons a p =>
          simp only [List.cons_append, List.cons.injEq] at ht
          have ha := hsp a (List.mem_cons_self a p)
          rw [ht.1, ha] at hc
          exact absurd hc (by simp)
      · exact hl
    · rw [if_neg hc]
      exact h

theorem hasSub_of_dropWhile_sp {p l : List Char}
    (h : hasSub p (l.dropWhile isSpacePy) = true) : hasSub p l = true := by
  have hd := List.takeWhile_append_dropWhile (p := isSpacePy) (l := l)
  rw [← hd]
  exact hasSub_append_left h

theorem hasSub_pyStrip {p l : List Char} (h : hasSub p l = true)
    (hne : p ≠ []) (hsp : ∀ c ∈ p, isSpacePy c = false) :
    hasSub p (pyStrip l) = true := by
  unfold pyStrip
  have h1 : hasSub p (l.dropWhile isSpacePy) = true := hasSub_dropWhile_sp h hne hsp
  have h2 : hasSub p.reverse (l.dropWhile isSpacePy).reverse = true := hasSub_reverse h1
  have h3 : hasSub p.reverse ((l.dropWhile isSpacePy).reverse.dropWhile isSpacePy) = true := by
    apply hasSub_dropWhile_sp h2
    · simpa using hne
    · intro c hc; exact hsp c (List.mem_reverse.mp hc)
  simpa using hasSub_reverse h3

theorem hasSub_of_pyStrip {p l : List Char} (h : hasSub p (pyStrip l) = true) :
    hasSub p l = true := by
  unfold pyStrip at h
  have h1 : hasSub p.reverse ((l.dropWhile isSpacePy).reverse.dropWhile isSpacePy) = true := by
    simpa using hasSub_reverse h
  have h2 : hasSub p.reverse (l.dropWhile isSpacePy).reverse = true :=
    hasSub_of_dropWhile_sp h1
  have h3 : hasSub p (l.dropWhile isSpacePy) = true := by
    simpa using hasSub_reverse h2
  exact hasSub_of_dropWhile_sp h3

theorem toNat_ofNat_ascii {n : Nat} (h1 : 97 ≤ n) (h2 : n ≤ 122) :
    (Char.ofNat n).toNat = n := by
  have hv : n.isValidChar := Or.inl (by omega)
  simp only [Char.ofNat, hv, dite_true, Char.ofNatAux, Char.toNat]
  simp [UInt32.toNat]

theorem isSpacePy_lowChar (c : Char) : isSpacePy (lowChar c) = isSpacePy c := by
  unfold lowChar
  by_cases h : 65 ≤ c.toNat ∧ c.toNat ≤ 90
  · rw [if_pos h]
    have ht : (Char.ofNat (c.toNat + 32)).toNat = c.toNat + 32 :=
      toNat_ofNat_ascii (by omega) (by omega)
    unfold isSpacePy
    rw [ht]
    simp only [decide_eq_decide]
    omega
  · rw [if_neg h]

theorem lowAscii_dropWhile (l : List Char) :
    (lowAscii l).dropWhile isSpacePy = lowAscii (l.dropWhile isSpacePy) := by
  induction l with
  | nil => rfl
  | cons c l ih =>
    simp only [lowAscii, List.map_cons, List.dropWhile_cons, isSpacePy_lowChar]
    by_cases h : isSpacePy c = true
    · simpa [h] using ih
    · simp only [Bool.not_eq_true] at h
      simp [h, lowAscii]

theorem lowAscii_pyStrip (l : List Char) : lowAscii (pyStrip l) = pyStrip (lowAscii l) := by
  unfold pyStrip
  rw [lowAscii_dropWhile]
  have hrev : ∀ m : List Char, lowAscii m.reverse = (lowAscii m).reverse := by
    intro m; simp [lowAscii]
  rw [← hrev, lowAscii_dropWhile, ← hrev]

theorem hasSub_lowAscii {p l : List Char} (h : hasSub p l = true) :
    hasSub (lowAscii p) (lowAscii l) = true := hasSub_map lowChar h

theorem lowLeft_eq : lowAscii (chars "Left") = chars "left" := by decide

theorem lowRight_eq : lowAscii (chars "Right") = chars "right" := by decide

theorem left_nonspace : ∀ c ∈ chars "left", isSpacePy c = false := by decide

theorem right_nonspace : ∀ c ∈ chars "right", isSpacePy c = false := by decide

theorem isEmpty_false_of_ne {s : List Char} (h : s ≠ []) : s.isEmpty = false := by
  cases s with
  | nil => exact absurd rfl h
  | cons a l => rfl

/-- The left branch condition of `normalize_shoots`, evaluated on the
stripped string, is case-insensitive containment of `left` in the
original string. -/
theorem shootsCond_left (s : List Char) :
    (hasSub (chars "Left") (pyStrip s) || hasSub (chars "left") (lowAscii (pyStrip s)))
      = hasSub (chars "left") (lowAscii s) := by
  by_cases h : hasSub (chars "left") (lowAscii s) = true
  · rw [h]
    apply Bool.or_eq_true_iff.mpr
    right
    rw [lowAscii_pyStrip]
    exact hasSub_pyStrip h (by decide) left_nonspace
  · have h' : hasSub (chars "left") (lowAscii s) = false := Bool.eq_false_iff.mpr h
    rw [h']
    apply Bool.or_eq_false_iff.mpr
    constructor
    · cases hd : hasSub (chars "Left") (pyStrip s) with
      | false => rfl
      | true =>
        exfalso
        have h2 := hasSub_lowAscii hd
        rw [lowLeft_eq, lowAscii_pyStrip] at h2
        exact h (hasSub_of_pyStrip h2)
    · cases hd : hasSub (chars "left") (lowAscii (pyStrip s)) with
      | false => rfl
      | true =>
        exfalso
        rw [lowAscii_pyStrip] at hd
        exact h (hasSub_of_pyStrip hd)

/-- The right branch condition of `normalize_shoots`, likewise. -/
theorem shootsCond_right (s : List Char) :
    (hasSub (chars "Right") (pyStrip s) || hasSub (chars "right") (lowAscii (pyStrip s)))
      = hasSub (chars "right") (lowAscii s) := by
  by_cases h : hasSub (chars "right") (lowAscii s) = true
  · rw [h]
    apply Bool.or_eq_true_iff.mpr
    right
    rw [lowAscii_pyStrip]
    exact hasSub_pyStrip h (by decide) right_nonspace
  · have h' : hasSub (chars "right") (lowAscii s) = false := Bool.eq_false_iff.mpr h
    rw [h']
    apply Bool.or_eq_false_iff.mpr
    constructor
    · cases hd : hasSub (chars "Right") (pyStrip s) with
      | false => rfl
      | true =>
        exfalso
        have h2 := hasSub_lowAscii hd
        rw [lowRight_eq, lowAscii_pyStrip] at h2
        exact h (hasSub_of_pyStrip h2)
    · cases hd : hasSub (chars "right") (lowAscii (pyStrip s)) with
      | false => rfl
      | true =>
        exfalso
        rw [lowAscii_pyStrip] at hd
        exact h (hasSub_of_pyStrip hd)

theorem ne_nil_of_hasSub_low {p s : List Char} (hp : hasSub p [] = false)
    (h : hasSub p (lowAscii s) = true) : s ≠ [] := by
  rintro rfl
  rw [show lowAscii [] = [] from rfl, hp] at h
  exact absurd h (by simp)

/-- `normalize_shoots` on a string containing `left` case-insensitively. -/
theorem normalize_shoots_left {s : List Char}
    (h : hasSub (chars "left") (lowAscii s) = true) :
    normalize_shoots (some s) = some (chars "Left") := by
  have hs : s ≠ [] := ne_nil_of_hasSub_low (by decide) h
  simp only [normalize_shoots, isEmpty_false_of_ne hs, Bool.false_eq_true, if_false,
    shootsCond_left, h, if_true]

/-- `normalize_shoots` on a string containing `right` but not `left`. -/
theorem normalize_shoots_right {s : List Char}
    (hr : hasSub (chars "right") (lowAscii s) = true)
    (hl : hasSub (chars "left") (lowAscii s) = false) :
    normalize_shoots (some s) = some (chars "Right") := by
  have hs : s ≠ [] := ne_nil_of_hasSub_low (by decide) hr
  simp only [normalize_shoots, isEmpty_false_of_ne hs, Bool.false_eq_true, if_false,
    shootsCond_left, shootsCond_right, hl, hr, if_true]

/-- `normalize_shoots` on a nonempty string containing neither word. -/
theorem normalize_shoots_other {s : List Char} (hs : s ≠ [])
    (hl : hasSub (chars "left") (lowAscii s) = false)
    (hr : hasSub (chars "right") (lowAscii s) = false) :
    normalize_shoots (some s) = some (pyStrip s) := by
  simp only [normalize_shoots, isEmpty_false_of_ne hs, Bool.false_eq_true, if_false,
    shootsCond_left, shootsCond_right, hl, hr]

/-! ## Lemmas about the bulk repair -/

theorem roundFix_player_id (r : Row) : (roundFix r).player_id = r.player_id := by
  unfold roundFix; split <;> rfl

theorem roundFix_full_name (r : Row) : (roundFix r).full_name = r.full_name := by
  unfold roundFix; split <;> rfl

theorem roundFix_shoots (r : Row) : (roundFix r).shoots = r.shoots := by
  unfold roundFix; split <;> rfl

theorem leftFix_player_id (r : Row) : (leftFix r).player_id = r.player_id := by
  unfold leftFix; split <;> rfl

theorem leftFix_full_name (r : Row) : (leftFix r).full_name = r.full_name := by
  unfold leftFix; split <;> rfl

theorem leftFix_draft_round (r : Row) : (leftFix r).draft_round = r.draft_round := by
  unfold leftFix; split <;> rfl

theorem rightFix_player_id (r : Row) : (rightFix r).player_id = r.player_id := by
  unfold rightFix; split <;> rfl

theorem rightFix_full_name (r : Row) : (rightFix r).full_name = r.full_name := by
  unfold rightFix; split <;> rfl

theorem rightFix_draft_round (r : Row) : (rightFix r).draft_round = r.draft_round := by
  unfold rightFix; split <;> rfl

theorem leftFix_shoots (r : Row) : (leftFix r).shoots = leftFixS r.shoots := by
  unfold leftFix leftFixS leftPredB
  by_cases h : leftPredS r.shoots = true <;> simp [h]

theorem rightFix_shoots (r : Row) : (rightFix r).shoots = rightFixS r.shoots := by
  unfold rightFix rightFixS rightPredB
  by_cases h : rightPredS r.shoots = true <;> simp [h]

theorem rowFix_player_id (r : Row) : (rowFix r).player_id = r.player_id := by
  unfold rowFix
  rw [rightFix_player_id, leftFix_player_id, roundFix_player_id]

theorem rowFix_full_name (r : Row) : (rowFix r).full_name = r.full_name := by
  unfold rowFix
  rw [rightFix_full_name, leftFix_full_name, roundFix_full_name]

theorem rowFix_shoots (r : Row) : (rowFix r).shoots = rightFixS (leftFixS r.shoots) := by
  unfold rowFix
  rw [rightFix_shoots, leftFix_shoots, roundFix_shoots]

theorem rowFix_draft_round (r : Row) :
    (rowFix r).draft_round = (roundFix r).draft_round := by
  unfold rowFix
  rw [rightFix_draft_round, leftFix_draft_round]

theorem roundPredB_roundFix (r : Row) : roundPredB (roundFix r) = false := by
  unfold roundFix
  by_cases h : roundPredB r = true
  · rw [if_pos h]; rfl
  · rw [if_neg h]; exact Bool.eq_false_iff.mpr h

theorem roundPredB_rowFix (r : Row) : roundPredB (rowFix r) = false := by
  unfold roundPredB
  rw [rowFix_draft_round]
  exact roundPredB_roundFix r

theorem leftPredS_shootsFix (c : Option (List Char)) :
    leftPredS (rightFixS (leftFixS c)) = false := by
  by_cases hl : leftPredS c = true
  · simp only [leftFixS, hl, if_true]
    decide
  · have hl' := Bool.eq_false_iff.mpr hl
    by_cases hr : rightPredS c = true
    · simp only [leftFixS, hl', Bool.false_eq_true, if_false, rightFixS, hr, if_true]
      decide
    · have hr' := Bool.eq_false_iff.mpr hr
      simp only [leftFixS, hl', Bool.false_eq_true, if_false, rightFixS, hr']

theorem rightPredS_shootsFix (c : Option (List Char)) :
    rightPredS (rightFixS (leftFixS c)) = false := by
  by_cases hl : leftPredS c = true
  · simp only [leftFixS, hl, if_true]
    decide
  · have hl' := Bool.eq_false_iff.mpr hl
    by_cases hr : rightPredS c = true
    · simp only [leftFixS, hl', Bool.false_eq_true, if_false, rightFixS, hr, if_true]
      decide
    · have hr' := Bool.eq_false_iff.mpr hr
      simp only [leftFixS, hl', Bool.false_eq_true, if_false, rightFixS, hr']

theorem leftPredB_rowFix (r : Row) : leftPredB (rowFix r) = false := by
  unfold leftPredB
  rw [rowFix_shoots]
  exact leftPredS_shootsFix r.shoots

theorem rightPredB_rowFix (r : Row) : rightPredB (rowFix r) = false := by
  unfold rightPredB
  rw [rowFix_shoots]
  exact rightPredS_shootsFix r.shoots

theorem rightPredB_leftFix {r : Row} (h : rightPredB r = false) :
    rightPredB (leftFix r) = false := by
  unfold leftFix
  by_cases hl : leftPredB r = true
  · rw [if_pos hl]
    show rightPredS (some (chars "Left")) = false
    decide
  · rw [if_neg hl]
    exact h

theorem tableAfterRound_eq (t : List Row) : tableAfterRound t = t.map roundFix := by
  unfold tableAfterRound invalid_rounds
  by_cases h : (t.filter roundPredB).isEmpty = true
  · rw [if_pos h]
    have h' : ∀ r ∈ t, roundPredB r = false := by
      intro r hr
      exact Bool.eq_false_iff.mpr (List.filter_eq_nil_iff.mp (List.isEmpty_iff.mp h) r hr)
    have hmap : t.map roundFix = t := by
      have hid : t.map roundFix = t.map id :=
        List.map_congr_left (fun r hr => by unfold roundFix; rw [h' r hr]; simp)
      rw [hid, List.map_id]
    exact hmap.symm
  · rw [if_neg h]

theorem left_issues_empty_iff (t : List Row) :
    (left_issues t).isEmpty = true ↔ (t.map roundFix).filter leftPredB = [] := by
  unfold left_issues
  rw [tableAfterRound_eq, List.isEmpty_iff, List.map_eq_nil_iff]

theorem right_issues_empty_iff (t : List Row) :
    (right_issues t).isEmpty = true ↔ (t.map roundFix).filter rightPredB = [] := by
  unfold right_issues
  rw [tableAfterRound_eq, List.isEmpty_iff, List.map_eq_nil_iff]

theorem tableAfterLeft_eq (t : List Row) :
    tableAfterLeft t = (t.map roundFix).map leftFix := by
  unfold tableAfterLeft
  rw [tableAfterRound_eq]
  by_cases h : (left_issues t).isEmpty = true
  · rw [if_pos h]
    have h' : ∀ r ∈ t.map roundFix, leftPredB r = false := by
      intro r hr
      exact Bool.eq_false_iff.mpr
        (List.filter_eq_nil_iff.mp ((left_issues_empty_iff t).mp h) r hr)
    have hid : (t.map roundFix).map leftFix = (t.map roundFix).map id :=
      List.map_congr_left (fun r hr => by unfold leftFix; rw [h' r hr]; simp)
    rw [hid, List.map_id]
  · rw [if_neg h]

theorem fix_eq (t : List Row) : fix_existing_data t = t.map rowFix := by
  unfold fix_existing_data
  have hcomp : ((t.map roundFix).map leftFix).map rightFix = t.map rowFix := by
    rw [List.map_map, List.map_map]
    exact List.map_congr_left (fun r _ => rfl)
  by_cases h : (right_issues t).isEmpty = true
  · rw [if_pos h, tableAfterLeft_eq]
    have h' : ∀ r ∈ t.map roundFix, rightPredB r = false := by
      intro r hr
      exact Bool.eq_false_iff.mpr
        (List.filter_eq_nil_iff.mp ((right_issues_empty_iff t).mp h) r hr)
    have hid : ((t.map roundFix).map leftFix).map rightFix = (t.map roundFix).map leftFix := by
      rw [List.map_map]
      have : ∀ r ∈ t.map roundFix, (rightFix ∘ leftFix) r = leftFix r := by
        intro r hr
        have hrf := rightPredB_leftFix (h' r hr)
        show rightFix (leftFix r) = leftFix r
        unfold rightFix
        rw [hrf]
        simp
      exact List.map_congr_left this
    rw [← hcomp, hid]
  · rw [if_neg h, tableAfterLeft_eq, hcomp]

theorem rowFix_rowFix (r : Row) : rowFix (rowFix r) = rowFix r := by
  have h1 := roundPredB_rowFix r
  have h2 := leftPredB_rowFix r
  have h3 := rightPredB_rowFix r
  show rightFix (leftFix (roundFix (rowFix r))) = rowFix r
  have e1 : roundFix (rowFix r) = rowFix r := by unfold roundFix; rw [h1]; simp
  have e2 : leftFix (rowFix r) = rowFix r := by unfold leftFix; rw [h2]; simp
  have e3 : rightFix (rowFix r) = rowFix r := by unfold rightFix; rw [h3]; simp
  rw [e1, e2, e3]

example : normalize_shoots (some (chars "RightLeft")) = some (chars "Left") := by decide
example : normalize_shoots (some (chars "  lefty ")) = some (chars "Left") := by decide
example : normalize_shoots (some (chars " Both hands ")) = some (chars "Both hands")
  := by decide
example : normalize_shoots (some (chars "")) = Option.none := by decide
theorem normalize_draft_round_int (n : Int) :
    normalize_draft_round (PyVal.int n) = Except.ok (some (min n 2)) := rfl

/-! ## The claims -/

/-- C2, counterexample: `normalize_draft_round` applied to the integer 0
returns the integer 0, which does not lie in the closed range `[1, 2]`;
so it is false that every non-null return value lies in that range. -/
theorem claim2_counterexample :
    normalize_draft_round (PyVal.int 0) = Except.ok (some 0)
    ∧ ¬(1 ≤ (0 : Int) ∧ (0 : Int) ≤ 2) :=
  ⟨rfl, by decide⟩

/-- C2, amended: for every input, `normalize_draft_round` returns either
null or an integer that is at most 2; only the upper bound of the
documented range is enforced (integers below 1 pass through unchanged). -/
theorem claim2_amended_upper_bound (v : PyVal) (n : Int)
    (h : normalize_draft_round v = Except.ok (some n)) : n ≤ 2 := by
  cases v with
  | none => simp [normalize_draft_round] at h
  | int m =>
    rw [normalize_draft_round_int] at h
    have h2 : some (min m 2) = some n := Except.ok.inj h
    have h3 : min m 2 = n := Option.some.inj h2
    rw [← h3]
    exact min_le_right m 2
  | str s =>
    cases hp : parseIntPy s with
    | none =>
      simp only [normalize_draft_round, pyIntConv, hp] at h
      exact absurd (Except.ok.inj h) (by simp)
    | some m =>
      simp only [normalize_draft_round, pyIntConv, hp] at h
      have h2 : some (min m 2) = some n := Except.ok.inj h
      have h3 : min m 2 = n := Option.some.inj h2
      rw [← h3]
      exact min_le_right m 2
  | obj => simp [normalize_draft_round, pyIntConv] at h

/-- C2, witness for the amended claim at the concrete input 7. -/
theorem claim2_witness : (2 : Int) ≤ 2 :=
  claim2_amended_upper_bound (PyVal.int 7) 2 (by rfl)

/-- C6: `normalize_draft_round` returns every integer `n ≤ 2` unchanged,
returns 2 for every integer `n > 2`, returns null on an unparsable
string, and returns null on absent (`None`) input. -/
theorem claim6_normalize_draft_round_spec :
    (∀ n : Int, n ≤ 2 → normalize_draft_round (PyVal.int n) = Except.ok (some n))
    ∧ (∀ n : Int, 2 < n → normalize_draft_round (PyVal.int n) = Except.ok (some 2))
    ∧ (∀ s : List Char, parseIntPy s = Option.none →
        normalize_draft_round (PyVal.str s) = Except.ok Option.none)
    ∧ normalize_draft_round PyVal.none = Except.ok Option.none := by
  refine ⟨?_, ?_, ?_, rfl⟩
  · intro n h
    rw [normalize_draft_round_int, min_eq_left h]
  · intro n h
    rw [normalize_draft_round_int, min_eq_right (le_of_lt h)]
  · intro s h
    simp only [normalize_draft_round, pyIntConv, h]

/-- C6, witness at the concrete inputs 1, 11, `"3rd"` and `None`. -/
theorem claim6_witness :
    normalize_draft_round (PyVal.int 1) = Except.ok (some 1)
    ∧ normalize_draft_round (PyVal.int 11) = Except.ok (some 2)
    ∧ normalize_draft_round (PyVal.str (chars "3rd")) = Except.ok Option.none :=
  ⟨claim6_normalize_draft_round_spec.1 1 (by decide),
   claim6_normalize_draft_round_spec.2.1 11 (by decide),
   claim6_normalize_draft_round_spec.2.2.1 (chars "3rd") (by rfl)⟩

/-- C10: `normalize_draft_round` is total and never raises: on every
input, of any type, it returns `Except.ok` — the conversion errors
(`ValueError`, `TypeError`) are caught inside the function, so no
caller can observe an exception. -/
theorem claim10_never_raises (v : PyVal) :
    ∃ o : Option Int, normalize_draft_round v = Except.ok o := by
  cases v with
  | none => exact ⟨Option.none, rfl⟩
  | int n => exact ⟨some (min n 2), rfl⟩
  | str s =>
    cases hp : parseIntPy s with
    | none =>
      exact ⟨Option.none, by simp only [normalize_draft_round, pyIntConv, hp]⟩
    | some m =>
      exact ⟨some (min m 2), by simp only [normalize_draft_round, pyIntConv, hp]⟩
  | obj => exact ⟨Option.none, rfl⟩

/-- C5: `normalize_shoots` returns `Left` on any string containing both
`left` and `right` case-insensitively, `Right` on any string containing
`right` but not `left`, null on empty or absent input, and the trimmed
original on a nonempty string containing neither. -/
theorem claim5_normalize_shoots_spec :
    (normalize_shoots Option.none = Option.none)
    ∧ (normalize_shoots (some []) = Option.none)
    ∧ (∀ s : List Char, hasSub (chars "left") (lowAscii s) = true →
        hasSub (chars "right") (lowAscii s) = true →
        normalize_shoots (some s) = some (chars "Left"))
    ∧ (∀ s : List Char, hasSub (chars "right") (lowAscii s) = true →
        hasSub (chars "left") (lowAscii s) = false →
        normalize_shoots (some s) = some (chars "Right"))
    ∧ (∀ s : List Char, s ≠ [] → hasSub (chars "left") (lowAscii s) = false →
        hasSub (chars "right") (lowAscii s) = false →
        normalize_shoots (some s) = some (pyStrip s)) := by
  refine ⟨rfl, rfl, ?_, ?_, ?_⟩
  · intro s hl _
    exact normalize_shoots_left hl
  · intro s hr hl
    exact normalize_shoots_right hr hl
  · intro s hs hl hr
    exact normalize_shoots_other hs hl hr

/-- C5, witness at the concrete inputs `"LeftRight"`, `"RIGHTY"` and
`" Both "`. -/
theorem claim5_witness :
    normalize_shoots (some (chars "LeftRight")) = some (chars "Left")
    ∧ normalize_shoots (some (chars "RIGHTY")) = some (chars "Right")
    ∧ normalize_shoots (some (chars " Both ")) = some (pyStrip (chars " Both ")) :=
  ⟨claim5_normalize_shoots_spec.2.2.1 (chars "LeftRight") (by decide) (by decide),
   claim5_normalize_shoots_spec.2.2.2.1 (chars "RIGHTY") (by decide) (by decide),
   claim5_normalize_shoots_spec.2.2.2.2 (chars " Both ") (by decide) (by decide) (by decide)⟩

/-- C4: one run of `fix_existing_data` reaches a fixed point — a second
run selects zero rows in the draft-round step and in both shoots
selects, and leaves the table unchanged. -/
theorem claim4_fixed_point (t : List Row) :
    invalid_rounds (fix_existing_data t) = []
    ∧ left_issues (fix_existing_data t) = []
    ∧ right_issues (fix_existing_data t) = []
    ∧ fix_existing_data (fix_existing_data t) = fix_existing_data t := by
  have hfor : ∀ r ∈ fix_existing_data t, roundPredB r = false := by
    intro r hr
    rw [fix_eq] at hr
    rcases List.mem_map.mp hr with ⟨r0, _, rfl⟩
    exact roundPredB_rowFix r0
  have hfl : ∀ r ∈ fix_existing_data t, leftPredB r = false := by
    intro r hr
    rw [fix_eq] at hr
    rcases List.mem_map.mp hr with ⟨r0, _, rfl⟩
    exact leftPredB_rowFix r0
  have hfr : ∀ r ∈ fix_existing_data t, rightPredB r = false := by
    intro r hr
    rw [fix_eq] at hr
    rcases List.mem_map.mp hr with ⟨r0, _, rfl⟩
    exact rightPredB_rowFix r0
  have h1 : invalid_rounds (fix_existing_data t) = [] := by
    unfold invalid_rounds
    exact List.filter_eq_nil_iff.mpr (fun r hr => by simp [hfor r hr])
  have h2 : tableAfterRound (fix_existing_data t) = fix_existing_data t := by
    unfold tableAfterRound
    rw [h1]
    simp
  have h3 : left_issues (fix_existing_data t) = [] := by
    unfold left_issues
    rw [h2, List.filter_eq_nil_iff.mpr (fun r hr => by simp [hfl r hr])]
    rfl
  have h4 : right_issues (fix_existing_data t) = [] := by
    unfold right_issues
    rw [h2, List.filter_eq_nil_iff.mpr (fun r hr => by simp [hfr r hr])]
    rfl
  refine ⟨h1, h3, h4, ?_⟩
  rw [fix_eq, fix_eq t, List.map_map]
  exact List.map_congr_left (fun r _ => rowFix_rowFix r)

/-- C1, counterexample: on a one-row table whose shoots value is
`"RightLeft"`, a run of `fix_existing_data` yields final shoots value
`"Left"`, not `"Right"` as the claim states — the right pass's update
predicate, re-evaluated against the already-left-corrected table, no
longer matches the row. -/
theorem claim1_counterexample :
    (fix_existing_data
        [⟨chars "x01", chars "Example", some (chars "RightLeft"), Option.none⟩]).map Row.shoots
      = [some (chars "Left")]
    ∧ (fix_existing_data
        [⟨chars "x01", chars "Example", some (chars "RightLeft"), Option.none⟩]).map Row.shoots
      ≠ [some (chars "Right")] := by
  constructor
  · decide
  · decide

/-- C1, amended: a row whose shoots value is `"RightLeft"` before the
run has final shoots value `"Left"` after the run — the left pass
rewrites it first, and the right pass's `WHERE`, evaluated against the
corrected table, no longer selects it. -/
theorem claim1_amended_rightleft_becomes_left (t : List Row) (i : Nat) (r : Row)
    (hi : t[i]? = some r) (hs : r.shoots = some (chars "RightLeft")) :
    ∃ r', (fix_existing_data t)[i]? = some r'
      ∧ r'.shoots = some (chars "Left")
      ∧ r'.player_id = r.player_id ∧ r'.full_name = r.full_name := by
  refine ⟨rowFix r, ?_, ?_, rowFix_player_id r, rowFix_full_name r⟩
  · rw [fix_eq, List.getElem?_map, hi]
    rfl
  · rw [rowFix_shoots, hs]
    decide

/-- C1, witness for the amended claim on a concrete one-row table. -/
theorem claim1_witness :
    ∃ r', (fix_existing_data
        [⟨chars "w01", chars "W", some (chars "RightLeft"), some 1⟩])[0]? = some r'
      ∧ r'.shoots = some (chars "Left")
      ∧ r'.player_id = chars "w01" ∧ r'.full_name = chars "W" :=
  claim1_amended_rightleft_becomes_left
    [⟨chars "w01", chars "W", some (chars "RightLeft"), some 1⟩] 0
    ⟨chars "w01", chars "W", some (chars "RightLeft"), some 1⟩ rfl rfl

/-- The composite shoots-cell effect maps any cell containing `left` or
`right` case-insensitively to exactly `Left` or exactly `Right`. -/
theorem shootsFix_of_contains {s : List Char}
    (h : hasSub (chars "left") (lowAscii s) = true
      ∨ hasSub (chars "right") (lowAscii s) = true) :
    rightFixS (leftFixS (some s)) = some (chars "Left")
    ∨ rightFixS (leftFixS (some s)) = some (chars "Right") := by
  by_cases hl : hasSub (chars "left") (lowAscii s) = true
  · by_cases hne : s = chars "Left"
    · subst hne
      left
      decide
    · left
      have hp : leftPredS (some s) = true := by
        simp only [leftPredS, lowLeft_eq, hl, Bool.true_and]
        simp [hne]
      simp only [leftFixS, hp, if_true]
      decide
  · have hl' : hasSub (chars "left") (lowAscii s) = false := Bool.eq_false_iff.mpr hl
    have hr : hasSub (chars "right") (lowAscii s) = true := by
      rcases h with h | h
      · exact absurd h hl
      · exact h
    have hpL : leftPredS (some s) = false := by
      simp only [leftPredS, lowLeft_eq, hl']
      simp
    by_cases hne : s = chars "Right"
    · subst hne
      right
      simp only [leftFixS, hpL, Bool.false_eq_true, if_false]
      decide
    · right
      have hpR : rightPredS (some s) = true := by
        simp only [rightPredS, lowRight_eq, hr, Bool.true_and]
        simp [hne]
      simp only [leftFixS, hpL, Bool.false_eq_true, if_false, rightFixS, hpR, if_true]

/-- C9: the shoots passes match case-insensitively, as SQLite `LIKE`
does: a row whose shoots value contains `left` (any ASCII case) and is
not exactly `Left` is selected into `left_issues` and ends as `Left`; a
row containing `right` but not `left` and not exactly `Right` is
selected into `right_issues` and ends as `Right`; and every row
containing either word ends as exactly `Left` or exactly `Right`. -/
theorem claim9_like_case_insensitive (t : List Row) (i : Nat) (r : Row) (s : List Char)
    (hi : t[i]? = some r) (hs : r.shoots = some s) :
    (hasSub (chars "left") (lowAscii s) = true → s ≠ chars "Left" →
      (r.player_id, r.full_name, some s) ∈ left_issues t
      ∧ ∃ r', (fix_existing_data t)[i]? = some r' ∧ r'.shoots = some (chars "Left"))
    ∧ (hasSub (chars "right") (lowAscii s) = true →
      hasSub (chars "left") (lowAscii s) = false → s ≠ chars "Right" →
      (r.player_id, r.full_name, some s) ∈ right_issues t
      ∧ ∃ r', (fix_existing_data t)[i]? = some r' ∧ r'.shoots = some (chars "Right"))
    ∧ ((hasSub (chars "left") (lowAscii s) = true
        ∨ hasSub (chars "right") (lowAscii s) = true) →
      ∃ r', (fix_existing_data t)[i]? = some r'
        ∧ (r'.shoots = some (chars "Left") ∨ r'.shoots = some (chars "Right"))) := by
  have hmem : r ∈ t := List.getElem?_mem hi
  have hfix : (fix_existing_data t)[i]? = some (rowFix r) := by
    rw [fix_eq, List.getElem?_map, hi]
    rfl
  refine ⟨?_, ?_, ?_⟩
  · intro hl hne
    have hp : leftPredS (some s) = true := by
      simp only [leftPredS, lowLeft_eq, hl, Bool.true_and]
      simp [hne]
    constructor
    · unfold left_issues
      rw [tableAfterRound_eq]
      have hpred : leftPredB (roundFix r) = true := by
        unfold leftPredB
        rw [roundFix_shoots, hs]
        exact hp
      have hfil : roundFix r ∈ (t.map roundFix).filter leftPredB :=
        List.mem_filter.mpr ⟨List.mem_map_of_mem roundFix hmem, hpred⟩
      have htup : (r.player_id, r.full_name, some s)
          = ((roundFix r).player_id, (roundFix r).full_name, (roundFix r).shoots) := by
        rw [roundFix_player_id, roundFix_full_name, roundFix_shoots, hs]
      rw [htup]
      exact List.mem_map_of_mem _ hfil
    · refine ⟨rowFix r, hfix, ?_⟩
      rw [rowFix_shoots, hs]
      simp only [leftFixS, hp, if_true]
      decide
  · intro hr hl hne
    have hpL : leftPredS (some s) = false := by
      simp only [leftPredS, lowLeft_eq, hl]
      simp
    have hpR : rightPredS (some s) = true := by
      simp only [rightPredS, lowRight_eq, hr, Bool.true_and]
      simp [hne]
    constructor
    · unfold right_issues
      rw [tableAfterRound_eq]
      have hpred : rightPredB (roundFix r) = true := by
        unfold rightPredB
        rw [roundFix_shoots, hs]
        exact hpR
      have hfil : roundFix r ∈ (t.map roundFix).filter rightPredB :=
        List.mem_filter.mpr ⟨List.mem_map_of_mem roundFix hmem, hpred⟩
      have htup : (r.player_id, r.full_name, some s)
          = ((roundFix r).player_id, (roundFix r).full_name, (roundFix r).shoots) := by
        rw [roundFix_player_id, roundFix_full_name, roundFix_shoots, hs]
      rw [htup]
      exact List.mem_map_of_mem _ hfil
    · refine ⟨rowFix r, hfix, ?_⟩
      rw [rowFix_shoots, hs]
      simp only [leftFixS, hpL, Bool.false_eq_true, if_false, rightFixS, hpR, if_true]
  · intro h
    refine ⟨rowFix r, hfix, ?_⟩
    rw [rowFix_shoots, hs]
    exact shootsFix_of_contains h

/-- C9, witness on a concrete one-row table with shoots `"lefty"`. -/
theorem claim9_witness :
    (chars "l01", chars "Lefty", some (chars "lefty"))
      ∈ left_issues [⟨chars "l01", chars "Lefty", some (chars "lefty"), Option.none⟩]
    ∧ ∃ r', (fix_existing_data
          [⟨chars "l01", chars "Lefty", some (chars "lefty"), Option.none⟩])[0]? = some r'
        ∧ r'.shoots = some (chars "Left") :=
  (claim9_like_case_insensitive
    [⟨chars "l01", chars "Lefty", some (chars "lefty"), Option.none⟩] 0
    ⟨chars "l01", chars "Lefty", some (chars "lefty"), Option.none⟩
    (chars "lefty") rfl rfl).1 (by decide) (by decide)

/-- C3, counterexample: step 1's console report on a row with
draft_round 5 never mentions the row's player identifier — only the
name and the offending value are printed — so the claim that the
identifier is reported is false. -/
theorem claim3_counterexample :
    ¬ ∃ l ∈ step1Lines [⟨chars "doe01", chars "John", Option.none, some 5⟩],
        hasSub (chars "doe01") l = true := by
  decide

/-- C3, amended: for every row with draft_round greater than 2, step 1
prints a line with that row's name and offending value (but not its
player identifier, which is selected yet not printed), rewrites all
such rows' draft_round to exactly 2, and prints the count of rows the
bulk update affected. -/
theorem claim3_amended_report_and_rewrite (t : List Row) (i : Nat) (r : Row) (n : Int)
    (hi : t[i]? = some r) (hn : r.draft_round = some n) (h2 : 2 < n) :
    roundLine r.full_name n ∈ step1Lines t
    ∧ (chars "   ✅ Updated " ++ natToChars (invalid_rounds t).length
        ++ chars " players to round 2\n") ∈ step1Lines t
    ∧ ∃ r', (fix_existing_data t)[i]? = some r' ∧ r'.draft_round = some 2
        ∧ r'.player_id = r.player_id ∧ r'.full_name = r.full_name := by
  have hmem : r ∈ t := List.getElem?_mem hi
  have hpred : roundPredB r = true := by
    simp only [roundPredB, hn]
    exact decide_eq_true h2
  have hinv : r ∈ invalid_rounds t := List.mem_filter.mpr ⟨hmem, hpred⟩
  have hne : (invalid_rounds t).isEmpty = false := by
    cases hiv : invalid_rounds t with
    | nil => rw [hiv] at hinv; exact absurd hinv (List.not_mem_nil r)
    | cons a l => rfl
  refine ⟨?_, ?_, ?_⟩
  · simp only [step1Lines, hne, Bool.false_eq_true, if_false]
    apply List.mem_append_left
    apply List.mem_append_right
    have heq : roundLine r.full_name n
        = (fun r => roundLine r.full_name (r.draft_round.getD 0)) r := by
      show roundLine r.full_name n = roundLine r.full_name (r.draft_round.getD 0)
      rw [hn]
      rfl
    rw [heq]
    exact List.mem_map_of_mem _ hinv
  · simp only [step1Lines, hne, Bool.false_eq_true, if_false]
    apply List.mem_append_right
    exact List.mem_singleton.mpr rfl
  · refine ⟨rowFix r, ?_, ?_, rowFix_player_id r, rowFix_full_name r⟩
    · rw [fix_eq, List.getElem?_map, hi]
      rfl
    · rw [rowFix_draft_round]
      unfold roundFix
      rw [hpred]
      simp

/-- C3, witness for the amended claim on a concrete one-row table. -/
theorem claim3_witness :
    roundLine (chars "Jane") 5
      ∈ step1Lines [⟨chars "roe02", chars "Jane", Option.none, some 5⟩]
    ∧ (chars "   ✅ Updated "
        ++ natToChars
          (invalid_rounds [⟨chars "roe02", chars "Jane", Option.none, some 5⟩]).length
        ++ chars " players to round 2\n")
      ∈ step1Lines [⟨chars "roe02", chars "Jane", Option.none, some 5⟩]
    ∧ ∃ r', (fix_existing_data
          [⟨chars "roe02", chars "Jane", Option.none, some 5⟩])[0]? = some r'
        ∧ r'.draft_round = some 2
        ∧ r'.player_id = chars "roe02" ∧ r'.full_name = chars "Jane" :=
  claim3_amended_report_and_rewrite
    [⟨chars "roe02", chars "Jane", Option.none, some 5⟩] 0
    ⟨chars "roe02", chars "Jane", Option.none, some 5⟩ 5 rfl rfl (by decide)

theorem processShoots_draft_team (st : ExtractSt) (text : List Char) :
    (processShoots st text).draft_team = st.draft_team := by
  unfold processShoots
  split
  · split <;> rfl
  · rfl

theorem processShoots_draft_round (st : ExtractSt) (text : List Char) :
    (processShoots st text).draft_round = st.draft_round := by
  unfold processShoots
  split
  · split <;> rfl
  · rfl

theorem processShoots_draft_pick (st : ExtractSt) (text : List Char) :
    (processShoots st text).draft_pick = st.draft_pick := by
  unfold processShoots
  split
  · split <;> rfl
  · rfl

theorem processShoots_draft_year (st : ExtractSt) (text : List Char) :
    (processShoots st text).draft_year = st.draft_year := by
  unfold processShoots
  split
  · split <;> rfl
  · rfl

/-- C7: a paragraph containing the marker `Draft:` together with
`Undrafted` (or `undrafted`) forces all four draft fields to null,
whatever else the paragraph contains and whatever values the extraction
state held before. -/
theorem claim7_undrafted_override (st : ExtractSt) (text : List Char)
    (hd : hasSub (chars "Draft:") text = true)
    (hu : (hasSub (chars "Undrafted") text || hasSub (chars "undrafted") text) = true) :
    (processPara st text).draft_round = Option.none
    ∧ (processPara st text).draft_pick = Option.none
    ∧ (processPara st text).draft_team = Option.none
    ∧ (processPara st text).draft_year = Option.none := by
  unfold processPara processDraft
  rw [if_pos hd, if_pos hu]
  exact ⟨rfl, rfl, rfl, rfl⟩

/-- C7, witness: a paragraph with both `Undrafted` and other draft-like
text nulls the four fields, overriding previously extracted values. -/
theorem claim7_witness :
    (processPara ⟨Option.none, some 1999, some 1, some 10, some (chars "X")⟩
        (chars "Draft: Undrafted, 2nd round, 1996 NBA Draft")).draft_round = Option.none
    ∧ (processPara ⟨Option.none, some 1999, some 1, some 10, some (chars "X")⟩
        (chars "Draft: Undrafted, 2nd round, 1996 NBA Draft")).draft_pick = Option.none
    ∧ (processPara ⟨Option.none, some 1999, some 1, some 10, some (chars "X")⟩
        (chars "Draft: Undrafted, 2nd round, 1996 NBA Draft")).draft_team = Option.none
    ∧ (processPara ⟨Option.none, some 1999, some 1, some 10, some (chars "X")⟩
        (chars "Draft: Undrafted, 2nd round, 1996 NBA Draft")).draft_year = Option.none :=
  claim7_undrafted_override ⟨Option.none, some 1999, some 1, some 10, some (chars "X")⟩
    (chars "Draft: Undrafted, 2nd round, 1996 NBA Draft") (by decide) (by decide)

/-- C8: on the paragraph `Draft: Lakers, 1st round, 13th pick, 1996 NBA
Draft` the extractor produces team `Lakers`, round 1, pick 13, year
1996; and in the non-`Undrafted` branch the four pattern extractions
are independent — each draft field is determined by its own pattern
alone, keeping its prior value exactly when its own pattern is absent. -/
theorem claim8_extraction_scenario_and_independence :
    processPara initSt (chars "Draft: Lakers, 1st round, 13th pick, 1996 NBA Draft")
      = ⟨Option.none, some 1996, some 1, some 13, some (chars "Lakers")⟩
    ∧ ∀ (st : ExtractSt) (text : List Char),
        hasSub (chars "Draft:") text = true →
        (hasSub (chars "Undrafted") text || hasSub (chars "undrafted") text) = false →
        ((processPara st text).draft_team
            = match searchDraftTeam text with
              | some g => some (pyStrip g)
              | Option.none => st.draft_team)
        ∧ ((processPara st text).draft_round
            = match searchNumLit (chars "round") text with
              | some raw => some (min (raw : Int) 2)
              | Option.none => st.draft_round)
        ∧ ((processPara st text).draft_pick
            = match searchNumLit (chars "pick") text with
              | some k => some (k : Int)
              | Option.none => st.draft_pick)
        ∧ ((processPara st text).draft_year
            = match searchYear text with
              | some y => some (y : Int)
              | Option.none => st.draft_year) := by
  constructor
  · decide
  · intro st text hd hu
    have hu' : ¬((hasSub (chars "Undrafted") text
        || hasSub (chars "undrafted") text) = true) := by
      rw [hu]
      simp
    unfold processPara processDraft
    rw [if_pos hd, if_neg hu']
    cases ht : searchDraftTeam text <;> cases hr : searchNumLit (chars "round") text <;>
      cases hp : searchNumLit (chars "pick") text <;> cases hy : searchYear text <;>
      simp only [ht, hr, hp, hy] <;>
      refine ⟨?_, ?_, ?_, ?_⟩ <;>
      first
        | trivial
        | exact processShoots_draft_team st text
        | exact processShoots_draft_round st text
        | exact processShoots_draft_pick st text
        | exact processShoots_draft_year st text

/-- C8, witness: a paragraph with team and year patterns but no round or
pick pattern fills exactly the two matching fields. -/
theorem claim8_witness :
    (processPara initSt (chars "Draft: Spurs, 1987 NBA Draft")).draft_team
      = some (chars "Spurs")
    ∧ (processPara initSt (chars "Draft: Spurs, 1987 NBA Draft")).draft_round
      = initSt.draft_round
    ∧ (processPara initSt (chars "Draft: Spurs, 1987 NBA Draft")).draft_pick
      = initSt.draft_pick
    ∧ (processPara initSt (chars "Draft: Spurs, 1987 NBA Draft")).draft_year
      = some 1987 := by
  have h := claim8_extraction_scenario_and_independence.2 initSt
    (chars "Draft: Spurs, 1987 NBA Draft") (by decide) (by decide)
  refine ⟨?_, ?_, ?_, ?_⟩
  · rw [h.1]
    decide
  · rw [h.2.1]
    decide
  · rw [h.2.2.1]
    decide
  · rw [h.2.2.2]
    decide

example : normalize_draft_round (PyVal.int 7) = Except.ok (some 2) := rfl
example : normalize_draft_round (PyVal.int 0) = Except.ok (some 0) := rfl
example : normalize_draft_round (PyVal.str (chars " -3 ")) = Except.ok (some (-3)) := rfl
example : normalize_draft_round (PyVal.str (chars "abc")) = Except.ok Option.none := rfl

end NbaFix
